import Mathlib

/-!
Verification of the `sse` package (Server-Sent Events broadcaster for Go).

The development shallowly embeds `src/sse.go`:

* byte slices become `List Nat` (each element a byte value);
* Go's builtin `copy(dst[i:], src)` becomes `goCopy`, which returns the
  updated list, and `goCopyCount`, the number of elements copied;
* the frame encoder `format` and the `Send*` methods are translated
  literally, index arithmetic included;
* the coordinator goroutine (`Streamer.run`) becomes a step function on an
  explicit coordinator state: the registry (`map[client]bool`) is a
  `Finset Nat` of client identities and each client channel is modelled as
  the list of frames delivered to it so far;
* `ServeHTTP` is modelled by the decision it makes before entering the
  streaming loop: which response it produces and which coordinator
  requests it emits.
-/

namespace SSE

/-- Bytes of a Go string (one `Nat` per character; all protocol strings are
ASCII, where Go bytes and characters coincide). -/
def strBytes (s : String) : List Nat := s.toList.map Char.toNat

/-- Result of Go's `copy(dst[i:], src)`: the updated slice.  At most
`dst.length - i` elements of `src` are copied, the rest of `dst` is kept. -/
def goCopy (dst : List Nat) (i : Nat) (src : List Nat) : List Nat :=
  dst.take i ++ src.take (dst.length - i) ++ dst.drop (i + src.length)

/-- Return value of Go's `copy(dst[i:], src)`: the number of elements
copied, `min (len src) (len dst - i)`. -/
def goCopyCount (dst : List Nat) (i : Nat) (src : List Nat) : Nat :=
  min src.length (dst.length - i)

/-- Translation of `format(id, event string, dataLen int) []byte` from
`src/sse.go`.  Byte 10 is `\n`, byte 58 is `:`.  The `id` parameter is
accepted and ignored, exactly as in the source (`// TODO: id`). -/
def format (id event : String) (dataLen : Nat) : List Nat :=
  -- calc length: l := 6 (data\n\n), plus the event line, plus :data
  let l := 6
  let l := if event.length > 0 then l + (6 + event.length + 1) else l
  let l := if dataLen > 0 then l + (1 + dataLen) else l
  -- build: p := make([]byte, l), i := 0
  let p := List.replicate l 0
  let pi : List Nat × Nat :=
    if event.length > 0 then
      let p := goCopy p 0 (strBytes "event:")
      let n := goCopyCount p 6 (strBytes event)
      let p := goCopy p 6 (strBytes event)
      let i := 0 + (6 + n)
      let p := p.set i 10
      (p, i + 1)
    else (p, 0)
  let p := pi.1
  let i := pi.2
  let n2 := goCopyCount p i (strBytes "data")
  let p := goCopy p i (strBytes "data")
  let i := i + n2
  let pi2 : List Nat × Nat :=
    if dataLen > 0 then
      let p := p.set i 58
      (p, i + (1 + dataLen))
    else (p, i)
  goCopy pi2.1 pi2.2 (strBytes "\n\n")

/-- Frame built by `Streamer.SendBytes`: `format` followed by
`copy(p[len(p)-(2+len(data)):], data)`. -/
def SendBytes (id event : String) (data : List Nat) : List Nat :=
  let p := format id event data.length
  goCopy p (p.length - (2 + data.length)) data

/-- Frame built by `Streamer.SendString`: identical to `SendBytes` with the
string's bytes as data. -/
def SendString (id event data : String) : List Nat :=
  let p := format id event data.length
  goCopy p (p.length - (2 + (strBytes data).length)) (strBytes data)

end SSE

namespace SSE

/-- Little-endian decimal digit bytes of `n` (ASCII, least significant
first), with explicit fuel so that the definition is structurally
recursive.  This embeds the digit loop of `strconv.AppendUint`. -/
def decDigitsRev : Nat → Nat → List Nat
  | 0, _ => []
  | _ + 1, 0 => []
  | fuel + 1, n => (n % 10 + 48) :: decDigitsRev fuel (n / 10)

/-- Decimal byte representation of a natural number, as produced by
`strconv.AppendUint(_, n, 10)`: `"0"` for zero, otherwise the digits most
significant first. -/
def natDecBytes (n : Nat) : List Nat :=
  if n = 0 then [48] else (decDigitsRev n n).reverse

/-- Decimal byte representation of an integer, as produced by
`strconv.AppendInt(_, n, 10)`: a leading `-` (byte 45) for negative
numbers. -/
def intDecBytes (n : Int) : List Nat :=
  if n < 0 then 45 :: natDecBytes n.natAbs else natDecBytes n.toNat

/-- Frame built by `Streamer.SendInt`: `format` with a 20-byte data
reservation, truncation to just after the `:`, `strconv.AppendInt`, then a
reslice two bytes longer (exposing bytes of the original backing array,
which `format` allocated) whose last two bytes are overwritten with
`\n\n`. -/
def SendInt (id event : String) (data : Int) : List Nat :=
  let maxIntToStrLen := 20
  let p := format id event maxIntToStrLen
  let p1 := p.take (p.length - (maxIntToStrLen + 2)) ++ intDecBytes data
  -- p = p[:len(p)+2]: the two exposed bytes come from the backing array
  let p2 := p1 ++ (p.drop p1.length).take 2
  (p2.set (p2.length - 2) 10).set (p2.length - 1) 10

/-- Frame built by `Streamer.SendUint`, analogous to `SendInt` with
`strconv.AppendUint`. -/
def SendUint (id event : String) (data : Nat) : List Nat :=
  let maxUintToStrLen := 20
  let p := format id event maxUintToStrLen
  let p1 := p.take (p.length - (maxUintToStrLen + 2)) ++ natDecBytes data
  let p2 := p1 ++ (p.drop p1.length).take 2
  (p2.set (p2.length - 2) 10).set (p2.length - 1) 10

end SSE

namespace SSE

/-- A request arriving at the coordinator goroutine of `Streamer.run`: one
of the three channels `connecting`, `disconnecting`, `event`.  Clients are
identified by a natural number (Go's `client` channel value serves only as
an identity for the registry map). -/
inductive Request where
  | connect (c : Nat)
  | disconnect (c : Nat)
  | event (frame : List Nat)
  deriving DecidableEq

/-- State owned by the coordinator goroutine: the registry
`clients map[client]bool` (as the set of keys mapped to `true`) and, for
each client identity, the list of frames sent into its channel so far. -/
structure CoordState where
  clients : Finset Nat
  queues : Nat → List (List Nat)

/-- One iteration of the `select` loop in `Streamer.run`: a connect
inserts into the registry, a disconnect deletes from it, and an event is
sent into the channel of every registered client. -/
def step (st : CoordState) : Request → CoordState
  | .connect c => { st with clients := insert c st.clients }
  | .disconnect c => { st with clients := st.clients.erase c }
  | .event f =>
      { st with
        queues := fun c =>
          if c ∈ st.clients then st.queues c ++ [f] else st.queues c }

/-- The coordinator processing a sequence of requests in arrival order. -/
def run (st : CoordState) : List Request → CoordState
  | [] => st
  | r :: rs => run (step st r) rs

/-- Frames delivered to client `c` by one request: a broadcast frame when
`c` is currently registered, nothing otherwise. -/
def deliveredNow (st : CoordState) (c : Nat) : Request → List (List Nat)
  | .event f => if c ∈ st.clients then [f] else []
  | _ => []

/-- Frames delivered to client `c` along a request trace: exactly the
frames of the broadcast requests processed while `c` is in the registry,
in trace order. -/
def receivedFrames (st : CoordState) (c : Nat) : List Request → List (List Nat)
  | [] => []
  | r :: rs => deliveredNow st c r ++ receivedFrames (step st r) c rs

/-- Outcome of `Streamer.SendJSON`.  `json.Marshal` belongs to the
external `encoding/json` package, so its result is taken as a parameter
`m`: `.error e` when marshalling fails, `.ok data` with the serialized
bytes otherwise.  The embedding returns `.error e` when the method returns
the error without broadcasting, and `.ok frame` when the method broadcasts
`frame` (via `SendBytes`) and returns `nil`. -/
def SendJSON (id event : String) (m : Except String (List Nat)) :
    Except String (List Nat) :=
  match m with
  | .error e => .error e
  | .ok data => .ok (SendBytes id event data)

/-- Effect of a `SendJSON` outcome on the coordinator state: a broadcast
frame is processed as an event request, an error leaves the coordinator
untouched. -/
def applySendJSON (st : CoordState) : Except String (List Nat) → CoordState
  | .error _ => st
  | .ok f => step st (.event f)

/-- Response chosen by `Streamer.ServeHTTP` before it enters its streaming
loop: either an `http.Error` with a message and status code, or the
streaming path. -/
inductive ServeResponse where
  | errorResp (msg : String) (status : Nat)
  | streaming
  deriving DecidableEq

/-- Capability checks of `Streamer.ServeHTTP` and the coordinator requests
it emits up to (and including) registration.  `flusher` is the result of
the `w.(http.Flusher)` type assertion, `closeNotifier` of
`w.(http.CloseNotifier)`; `cl` is the identity of the freshly allocated
client channel.  Status 501 is `http.StatusNotImplemented`. -/
def ServeHTTP (flusher closeNotifier : Bool) (cl : Nat) :
    ServeResponse × List Request :=
  if flusher = false then (.errorResp "Flushing not supported" 501, [])
  else if closeNotifier = false then (.errorResp "Closing not supported" 501, [])
  else (.streaming, [.connect cl])

end SSE

namespace SSE

/-! ### List helper lemmas -/

theorem drop_append_len (X Z : List Nat) (k : Nat) :
    (X ++ Z).drop (X.length + k) = Z.drop k := by
  induction X with
  | nil => simp
  | cons a t ih => simpa [Nat.succ_add] using ih

theorem take_replicate (k m a : Nat) :
    (List.replicate m a).take k = List.replicate (min k m) a := by
  induction m generalizing k with
  | zero => simp
  | succ m ih =>
    cases k with
    | zero => simp
    | succ k => simp [List.replicate_succ, ih, Nat.succ_min_succ]

theorem drop_replicate (k m a : Nat) :
    (List.replicate m a).drop k = List.replicate (m - k) a := by
  induction m generalizing k with
  | zero => simp
  | succ m ih =>
    cases k with
    | zero => simp
    | succ k => simpa [List.replicate_succ] using ih k

/-- `goCopy` at an index presented as a split of the destination. -/
theorem goCopy_at (dst X Z src : List Nat) (i : Nat)
    (hdst : dst = X ++ Z) (hi : i = X.length) :
    goCopy dst i src = X ++ src.take Z.length ++ Z.drop src.length := by
  subst hdst hi
  unfold goCopy
  rw [List.take_left, List.length_append, Nat.add_sub_cancel_left,
    drop_append_len, List.append_assoc]

/-- `goCopy` at index 0. -/
theorem goCopy_zero (dst src : List Nat) :
    goCopy dst 0 src = src.take dst.length ++ dst.drop src.length := by
  unfold goCopy
  simp

/-- `List.set` at an index presented as a split of the list. -/
theorem set_at (dst X Z : List Nat) (i v : Nat)
    (hdst : dst = X ++ Z) (hi : i = X.length) :
    dst.set i v = X ++ Z.set 0 v := by
  subst hdst hi
  induction X with
  | nil => simp
  | cons a t ih => simpa using ih

/-! ### Characterization of the frame encoder -/

/-- The event line of a frame: `event:<event>\n` when the event type is
non-empty, nothing otherwise. -/
def eventHeader (event : String) : List Nat :=
  if event.length > 0 then strBytes "event:" ++ strBytes event ++ [10] else []

theorem strBytes_length (s : String) : (strBytes s).length = s.length := by
  rw [strBytes, List.length_map]
  rfl

/-- What `format` builds: the optional event line, `data`, a zeroed data
area preceded by `:` when non-empty, and the terminating `\n\n`. -/
theorem format_eq (id event : String) (dataLen : Nat) :
    format id event dataLen =
      eventHeader event ++ strBytes "data" ++
        (if dataLen > 0 then 58 :: List.replicate dataLen 0 else []) ++
        [10, 10] := by
  have hb : event.length = (strBytes event).length := (strBytes_length event).symm
  have hSE : (strBytes "event:").length = 6 := by decide
  have hSD : (strBytes "data").length = 4 := by decide
  have hNL : strBytes "\n\n" = [10, 10] := by decide
  simp only [format, eventHeader]
  rw [hb]
  generalize strBytes event = E
  by_cases he : E.length > 0 <;> by_cases hd : dataLen > 0
  · -- event non-empty, dataLen > 0
    simp only [if_pos he, if_pos hd, Nat.zero_add]
    have h1 : goCopy (List.replicate (6 + (6 + E.length + 1) + (1 + dataLen)) 0) 0
        (strBytes "event:")
        = strBytes "event:" ++ List.replicate (8 + E.length + dataLen) 0 := by
      rw [goCopy_zero, List.length_replicate,
        List.take_of_length_le (by rw [hSE]; omega), hSE, drop_replicate]
      have e1 : 6 + (6 + E.length + 1) + (1 + dataLen) - 6 = 8 + E.length + dataLen := by omega
      rw [e1]
    rw [h1]
    have h2 : goCopyCount (strBytes "event:" ++ List.replicate (8 + E.length + dataLen) 0) 6 E
        = E.length := by
      simp only [goCopyCount, List.length_append, List.length_replicate, hSE]
      omega
    rw [h2]
    have h3 : goCopy (strBytes "event:" ++ List.replicate (8 + E.length + dataLen) 0) 6 E
        = (strBytes "event:" ++ E) ++ List.replicate (8 + dataLen) 0 := by
      rw [goCopy_at _ (strBytes "event:") (List.replicate (8 + E.length + dataLen) 0) E 6
          rfl hSE.symm, List.length_replicate,
        List.take_of_length_le (by omega), drop_replicate]
      have e2 : 8 + E.length + dataLen - E.length = 8 + dataLen := by omega
      rw [e2]
    rw [h3]
    have h4 : ((strBytes "event:" ++ E) ++ List.replicate (8 + dataLen) 0).set (6 + E.length) 10
        = ((strBytes "event:" ++ E) ++ [10]) ++ List.replicate (7 + dataLen) 0 := by
      rw [set_at _ (strBytes "event:" ++ E) (List.replicate (8 + dataLen) 0) _ 10 rfl
          (by rw [List.length_append, hSE])]
      have e3 : (8 : Nat) + dataLen = (7 + dataLen) + 1 := by omega
      rw [e3, List.replicate_succ, List.set_cons_zero]
      simp
    rw [h4]
    have h5 : goCopyCount (((strBytes "event:" ++ E) ++ [10]) ++ List.replicate (7 + dataLen) 0)
        (6 + E.length + 1) (strBytes "data") = 4 := by
      simp only [goCopyCount, List.length_append, List.length_replicate, hSE, hSD,
        List.length_cons, List.length_nil]
      omega
    rw [h5]
    have h6 : goCopy (((strBytes "event:" ++ E) ++ [10]) ++ List.replicate (7 + dataLen) 0)
        (6 + E.length + 1) (strBytes "data")
        = (((strBytes "event:" ++ E) ++ [10]) ++ strBytes "data")
            ++ List.replicate (3 + dataLen) 0 := by
      rw [goCopy_at _ ((strBytes "event:" ++ E) ++ [10]) (List.replicate (7 + dataLen) 0) _
          (6 + E.length + 1) rfl
          (by simp only [List.length_append, List.length_cons, List.length_nil, hSE] <;> omega),
        List.length_replicate, List.take_of_length_le (by rw [hSD]; omega), hSD, drop_replicate]
      have e4 : 7 + dataLen - 4 = 3 + dataLen := by omega
      rw [e4]
    rw [h6]
    have h7 : ((((strBytes "event:" ++ E) ++ [10]) ++ strBytes "data")
          ++ List.replicate (3 + dataLen) 0).set (6 + E.length + 1 + 4) 58
        = (((((strBytes "event:" ++ E) ++ [10]) ++ strBytes "data")
            ++ (58 :: List.replicate dataLen 0)) ++ [0, 0]) := by
      rw [set_at _ (((strBytes "event:" ++ E) ++ [10]) ++ strBytes "data")
          (List.replicate (3 + dataLen) 0) _ 58 rfl
          (by simp only [List.length_append, List.length_cons, List.length_nil, hSE, hSD] <;> omega)]
      have e5 : (3 : Nat) + dataLen = (2 + dataLen) + 1 := by omega
      rw [e5, List.replicate_succ, List.set_cons_zero]
      have e6 : (2 : Nat) + dataLen = dataLen + 2 := by omega
      rw [e6, List.replicate_add]
      simp [List.replicate_succ]
    rw [h7]
    rw [goCopy_at _ ((((strBytes "event:" ++ E) ++ [10]) ++ strBytes "data")
          ++ (58 :: List.replicate dataLen 0)) [0, 0] _ (6 + E.length + 1 + 4 + (1 + dataLen)) rfl
        (by simp only [List.length_append, List.length_cons, List.length_nil, hSE, hSD,
              List.length_replicate]
            omega),
      hNL]
    simp
  · -- event non-empty, dataLen = 0
    simp only [if_pos he, if_neg hd, Nat.zero_add]
    have h1 : goCopy (List.replicate (6 + (6 + E.length + 1)) 0) 0 (strBytes "event:")
        = strBytes "event:" ++ List.replicate (7 + E.length) 0 := by
      rw [goCopy_zero, List.length_replicate,
        List.take_of_length_le (by rw [hSE]; omega), hSE, drop_replicate]
      have e1 : 6 + (6 + E.length + 1) - 6 = 7 + E.length := by omega
      rw [e1]
    rw [h1]
    have h2 : goCopyCount (strBytes "event:" ++ List.replicate (7 + E.length) 0) 6 E
        = E.length := by
      simp only [goCopyCount, List.length_append, List.length_replicate, hSE]
      omega
    rw [h2]
    have h3 : goCopy (strBytes "event:" ++ List.replicate (7 + E.length) 0) 6 E
        = (strBytes "event:" ++ E) ++ List.replicate 7 0 := by
      rw [goCopy_at _ (strBytes "event:") (List.replicate (7 + E.length) 0) E 6
          rfl hSE.symm, List.length_replicate,
        List.take_of_length_le (by omega), drop_replicate]
      have e2 : 7 + E.length - E.length = 7 := by omega
      rw [e2]
    rw [h3]
    have h4 : ((strBytes "event:" ++ E) ++ List.replicate 7 0).set (6 + E.length) 10
        = ((strBytes "event:" ++ E) ++ [10]) ++ List.replicate 6 0 := by
      rw [set_at _ (strBytes "event:" ++ E) (List.replicate 7 0) _ 10 rfl
          (by rw [List.length_append, hSE])]
      simp [List.replicate_succ]
    rw [h4]
    have h5 : goCopyCount (((strBytes "event:" ++ E) ++ [10]) ++ List.replicate 6 0)
        (6 + E.length + 1) (strBytes "data") = 4 := by
      simp only [goCopyCount, List.length_append, List.length_replicate, hSE, hSD,
        List.length_cons, List.length_nil]
      omega
    rw [h5]
    have h6 : goCopy (((strBytes "event:" ++ E) ++ [10]) ++ List.replicate 6 0)
        (6 + E.length + 1) (strBytes "data")
        = ((((strBytes "event:" ++ E) ++ [10]) ++ strBytes "data") ++ [0, 0]) := by
      rw [goCopy_at _ ((strBytes "event:" ++ E) ++ [10]) (List.replicate 6 0) _
          (6 + E.length + 1) rfl
          (by simp only [List.length_append, List.length_cons, List.length_nil, hSE] <;> omega),
        List.length_replicate, List.take_of_length_le (by rw [hSD]; omega), hSD, drop_replicate]
      simp [List.replicate_succ]
    rw [h6]
    rw [goCopy_at _ (((strBytes "event:" ++ E) ++ [10]) ++ strBytes "data") [0, 0] _
        (6 + E.length + 1 + 4) rfl
        (by simp only [List.length_append, List.length_cons, List.length_nil, hSE, hSD] <;> omega),
      hNL]
    simp
  · -- event empty, dataLen > 0
    simp only [if_neg he, if_pos hd, Nat.zero_add]
    have hC : goCopyCount (List.replicate (6 + (1 + dataLen)) 0) 0 (strBytes "data") = 4 := by
      simp only [goCopyCount, List.length_replicate, hSD]
      omega
    rw [hC]
    have h1 : goCopy (List.replicate (6 + (1 + dataLen)) 0) 0 (strBytes "data")
        = strBytes "data" ++ List.replicate (3 + dataLen) 0 := by
      rw [goCopy_zero, List.length_replicate,
        List.take_of_length_le (by rw [hSD]; omega), hSD, drop_replicate]
      have e1 : 6 + (1 + dataLen) - 4 = 3 + dataLen := by omega
      rw [e1]
    rw [h1]
    have h2 : (strBytes "data" ++ List.replicate (3 + dataLen) 0).set 4 58
        = (strBytes "data" ++ (58 :: List.replicate dataLen 0)) ++ [0, 0] := by
      rw [set_at _ (strBytes "data") (List.replicate (3 + dataLen) 0) _ 58 rfl hSD.symm]
      have e2 : (3 : Nat) + dataLen = (2 + dataLen) + 1 := by omega
      rw [e2, List.replicate_succ, List.set_cons_zero]
      have e3 : (2 : Nat) + dataLen = dataLen + 2 := by omega
      rw [e3, List.replicate_add]
      simp [List.replicate_succ]
    rw [h2]
    rw [goCopy_at _ (strBytes "data" ++ (58 :: List.replicate dataLen 0)) [0, 0] _
        (4 + (1 + dataLen)) rfl
        (by simp only [List.length_append, List.length_cons, List.length_replicate, hSD] <;> omega),
      hNL]
    simp
  · -- event empty, dataLen = 0
    simp only [if_neg he, if_neg hd, Nat.zero_add]
    decide

/-- `goCopy` of an empty source leaves the destination unchanged. -/
theorem goCopy_nil (dst : List Nat) (i : Nat) : goCopy dst i [] = dst := by
  unfold goCopy
  simp

/-- Overwriting the last two entries of a list that ends in a two-element
block replaces that block. -/
theorem set_last_two (q T : List Nat) (hT : T.length = 2) :
    (((q ++ T).set ((q ++ T).length - 2) 10).set ((q ++ T).length - 1) 10)
      = q ++ [10, 10] := by
  match T, hT with
  | [t0, t1], _ =>
    have h2 : (q ++ [t0, t1]).length - 2 = q.length := by
      simp only [List.length_append, List.length_cons, List.length_nil]
      omega
    have h1 : (q ++ [t0, t1]).length - 1 = q.length + 1 := by
      simp only [List.length_append, List.length_cons, List.length_nil]
      omega
    rw [h2, h1, set_at _ q [t0, t1] _ 10 rfl rfl, List.set_cons_zero]
    rw [set_at _ (q ++ [10]) [t1] _ 10 (by simp) (by simp), List.set_cons_zero]
    simp

/-- What `SendBytes` builds: the data bytes spliced into the reserved
area, with the `:` separator present exactly when the payload is
non-empty. -/
theorem SendBytes_eq (id event : String) (data : List Nat) :
    SendBytes id event data =
      eventHeader event ++ strBytes "data" ++
        (if data = [] then [] else 58 :: data) ++ [10, 10] := by
  simp only [SendBytes]
  rw [format_eq]
  by_cases hdata : data = []
  · subst hdata
    simp [goCopy_nil]
  · have hm : data.length > 0 := List.length_pos.mpr hdata
    rw [if_pos hm, if_neg hdata]
    have hsplit : (eventHeader event ++ strBytes "data" ++ (58 :: List.replicate data.length 0)
          ++ [10, 10])
        = ((eventHeader event ++ strBytes "data") ++ [58])
            ++ (List.replicate data.length 0 ++ [10, 10]) := by
      simp
    rw [hsplit]
    rw [goCopy_at _ ((eventHeader event ++ strBytes "data") ++ [58])
        (List.replicate data.length 0 ++ [10, 10]) data _ rfl
        (by simp only [List.length_append, List.length_cons, List.length_nil,
              List.length_replicate]
            omega)]
    rw [List.take_of_length_le
        (by simp only [List.length_append, List.length_replicate, List.length_cons,
              List.length_nil]
            omega)]
    rw [List.drop_left' (List.length_replicate _ _)]
    simp

/-- `SendString` is `SendBytes` on the string bytes. -/
theorem SendString_eq_SendBytes (id event data : String) :
    SendString id event data = SendBytes id event (strBytes data) := by
  simp only [SendString, SendBytes, strBytes_length]

/-- Common core of `SendInt` and `SendUint`: for any decimal byte string
of at most 20 bytes, the truncate-append-reslice dance produces exactly
the frame with that payload, no padding left over. -/
theorem sendNum_core (id event : String) (D : List Nat) (h : D.length ≤ 20) :
    (let p := format id event 20
     let p1 := p.take (p.length - (20 + 2)) ++ D
     let p2 := p1 ++ (p.drop p1.length).take 2
     (p2.set (p2.length - 2) 10).set (p2.length - 1) 10)
      = eventHeader event ++ strBytes "data" ++ (58 :: D) ++ [10, 10] := by
  dsimp only
  have hfmt : format id event 20
      = ((eventHeader event ++ strBytes "data") ++ [58])
          ++ (List.replicate 20 0 ++ [10, 10]) := by
    rw [format_eq]
    simp
  rw [hfmt]
  have hidx : ((((eventHeader event ++ strBytes "data") ++ [58])
        ++ (List.replicate 20 0 ++ [10, 10])).length - (20 + 2))
      = ((eventHeader event ++ strBytes "data") ++ [58]).length := by
    simp only [List.length_append, List.length_replicate, List.length_cons, List.length_nil]
    omega
  rw [hidx, List.take_left]
  rw [set_last_two _ _ (by
    simp only [List.length_take, List.length_drop, List.length_append, List.length_replicate,
      List.length_cons, List.length_nil]
    omega)]
  simp

/-- What `SendInt` builds when the decimal form fits the 20-byte
reservation (always the case for 64-bit inputs, see the digit-length
lemmas below). -/
theorem SendInt_eq (id event : String) (n : Int) (h : (intDecBytes n).length ≤ 20) :
    SendInt id event n
      = eventHeader event ++ strBytes "data" ++ (58 :: intDecBytes n) ++ [10, 10] :=
  sendNum_core id event (intDecBytes n) h

/-- What `SendUint` builds when the decimal form fits the reservation. -/
theorem SendUint_eq (id event : String) (n : Nat) (h : (natDecBytes n).length ≤ 20) :
    SendUint id event n
      = eventHeader event ++ strBytes "data" ++ (58 :: natDecBytes n) ++ [10, 10] :=
  sendNum_core id event (natDecBytes n) h

/-! ### Decimal digits: length bounds and string form -/

theorem decDigitsRev_length_le (fuel : Nat) :
    ∀ n k : Nat, n < 10 ^ k → (decDigitsRev fuel n).length ≤ k := by
  induction fuel with
  | zero => intro n k _; simp [decDigitsRev]
  | succ fuel ih =>
    intro n k hn
    cases n with
    | zero => simp [decDigitsRev]
    | succ m =>
      cases k with
      | zero => omega
      | succ k =>
        have hd : m + 1 < 10 * 10 ^ k := by
          calc m + 1 < 10 ^ (k + 1) := hn
          _ = 10 * 10 ^ k := by ring
        have hdiv : (m + 1) / 10 < 10 ^ k := Nat.div_lt_of_lt_mul hd
        have := ih ((m + 1) / 10) k hdiv
        simp only [decDigitsRev, List.length_cons]
        omega

theorem natDecBytes_length_le (n k : Nat) (h1 : n < 10 ^ k) (h2 : 1 ≤ k) :
    (natDecBytes n).length ≤ k := by
  unfold natDecBytes
  by_cases h0 : n = 0
  · simp [h0, h2]
  · rw [if_neg h0, List.length_reverse]
    exact decDigitsRev_length_le n n k h1

theorem natDecBytes_length_le_20 (n : Nat) (h : n < 18446744073709551616) :
    (natDecBytes n).length ≤ 20 := by
  refine natDecBytes_length_le n 20 ?_ (by omega)
  have h20 : (10 : Nat) ^ 20 = 100000000000000000000 := by norm_num
  omega

theorem intDecBytes_length_le_20 (n : Int)
    (hlo : -9223372036854775808 ≤ n) (hhi : n < 9223372036854775808) :
    (intDecBytes n).length ≤ 20 := by
  have h19 : (10 : Nat) ^ 19 = 10000000000000000000 := by norm_num
  unfold intDecBytes
  by_cases hneg : n < 0
  · rw [if_pos hneg]
    have habs : n.natAbs ≤ 9223372036854775808 := by omega
    have : (natDecBytes n.natAbs).length ≤ 19 :=
      natDecBytes_length_le n.natAbs 19 (by omega) (by omega)
    simp only [List.length_cons]
    omega
  · rw [if_neg hneg]
    have htn : n.toNat < 10 ^ 19 := by omega
    have := natDecBytes_length_le n.toNat 19 htn (by omega)
    omega

theorem natDecBytes_ne_nil (n : Nat) : natDecBytes n ≠ [] := by
  unfold natDecBytes
  by_cases h0 : n = 0
  · simp [h0]
  · rw [if_neg h0]
    obtain ⟨m, rfl⟩ := Nat.exists_eq_succ_of_ne_zero h0
    simp [decDigitsRev]

theorem intDecBytes_ne_nil (n : Int) : intDecBytes n ≠ [] := by
  unfold intDecBytes
  by_cases hneg : n < 0
  · simp [hneg]
  · rw [if_neg hneg]
    exact natDecBytes_ne_nil _

theorem decDigitsRev_lt_128 (fuel : Nat) :
    ∀ n : Nat, ∀ b ∈ decDigitsRev fuel n, b < 128 := by
  induction fuel with
  | zero => intro n b hb; simp [decDigitsRev] at hb
  | succ fuel ih =>
    intro n b hb
    cases n with
    | zero => simp [decDigitsRev] at hb
    | succ m =>
      simp only [decDigitsRev, List.mem_cons] at hb
      rcases hb with hb | hb
      · have : (m + 1) % 10 < 10 := Nat.mod_lt _ (by omega)
        omega
      · exact ih _ b hb

theorem natDecBytes_lt_128 (n : Nat) : ∀ b ∈ natDecBytes n, b < 128 := by
  unfold natDecBytes
  by_cases h0 : n = 0
  · intro b hb
    simp [h0] at hb
    omega
  · rw [if_neg h0]
    intro b hb
    rw [List.mem_reverse] at hb
    exact decDigitsRev_lt_128 n n b hb

theorem intDecBytes_lt_128 (n : Int) : ∀ b ∈ intDecBytes n, b < 128 := by
  unfold intDecBytes
  by_cases hneg : n < 0
  · rw [if_pos hneg]
    intro b hb
    rcases List.mem_cons.mp hb with hb | hb
    · omega
    · exact natDecBytes_lt_128 _ b hb
  · rw [if_neg hneg]
    exact natDecBytes_lt_128 _

/-- `Char.ofNat` round-trips on ASCII codes. -/
theorem char_toNat_ofNat_ascii : ∀ b < 128, (Char.ofNat b).toNat = b := by
  decide

/-- The decimal textual representation of a natural number, as a string. -/
def natDecString (n : Nat) : String := String.mk ((natDecBytes n).map Char.ofNat)

/-- The decimal textual representation of an integer, as a string. -/
def intDecString (n : Int) : String := String.mk ((intDecBytes n).map Char.ofNat)

theorem map_char_roundtrip (l : List Nat) (h : ∀ b ∈ l, b < 128) :
    ((l.map Char.ofNat).map Char.toNat) = l := by
  rw [List.map_map]
  have hc : ∀ b ∈ l, (Char.toNat ∘ Char.ofNat) b = id b := fun b hb =>
    char_toNat_ofNat_ascii b (h b hb)
  rw [List.map_congr_left hc, List.map_id]

theorem strBytes_natDecString (n : Nat) : strBytes (natDecString n) = natDecBytes n := by
  unfold strBytes natDecString
  rw [show (String.mk ((natDecBytes n).map Char.ofNat)).toList
      = (natDecBytes n).map Char.ofNat from rfl]
  exact map_char_roundtrip _ (natDecBytes_lt_128 n)

theorem strBytes_intDecString (n : Int) : strBytes (intDecString n) = intDecBytes n := by
  unfold strBytes intDecString
  rw [show (String.mk ((intDecBytes n).map Char.ofNat)).toList
      = (intDecBytes n).map Char.ofNat from rfl]
  exact map_char_roundtrip _ (intDecBytes_lt_128 n)

/-- The fuel-based digit extraction agrees with Mathlib's `Nat.digits`
(shifted to ASCII) whenever the fuel covers the input, as it does in
`natDecBytes`. -/
theorem decDigitsRev_eq_digits (fuel : Nat) :
    ∀ n, n ≤ fuel → decDigitsRev fuel n = (Nat.digits 10 n).map (fun d => d + 48) := by
  induction fuel with
  | zero =>
    intro n hn
    have h0 : n = 0 := by omega
    simp [h0, decDigitsRev]
  | succ fuel ih =>
    intro n hn
    cases n with
    | zero => simp [decDigitsRev]
    | succ m =>
      rw [Nat.digits_def' (by norm_num : (1 : Nat) < 10) (Nat.succ_pos m)]
      simp only [decDigitsRev, List.map_cons]
      congr 1
      have hlt : (m + 1) / 10 < m + 1 := Nat.div_lt_self (Nat.succ_pos m) (by omega)
      exact ih ((m + 1) / 10) (by omega)

/-! ### Lines of a frame (for the `id:` line property) -/

/-- Split a byte sequence into lines at each newline byte (10). -/
def splitLines : List Nat → List (List Nat)
  | [] => [[]]
  | b :: t =>
      if b = 10 then [] :: splitLines t
      else
        match splitLines t with
        | [] => [[b]]
        | h :: r => (b :: h) :: r

/-- Whether some line of the byte sequence starts with `id:`
(bytes 105, 100, 58). -/
def hasIdLine (bs : List Nat) : Bool :=
  (splitLines bs).any fun l => decide (l.take 3 = [105, 100, 58])

theorem splitLines_append (A bs h : List Nat) (r : List (List Nat))
    (hA : ∀ b ∈ A, b ≠ 10) (hbs : splitLines bs = h :: r) :
    splitLines (A ++ bs) = (A ++ h) :: r := by
  induction A with
  | nil => simpa using hbs
  | cons a t ih =>
    have ha : a ≠ 10 := hA a (List.mem_cons_self a t)
    have ht : ∀ b ∈ t, b ≠ 10 := fun b hb => hA b (List.mem_cons_of_mem _ hb)
    rw [List.cons_append, splitLines, if_neg ha, ih ht]
    rfl

theorem splitLines_cons_nl (bs : List Nat) : splitLines (10 :: bs) = [] :: splitLines bs := by
  rw [splitLines, if_pos rfl]

/-! ### Claims -/

/-- Claim C1: when the coordinator processes a broadcast request, the
frame is enqueued onto every client queue in the registry at that step
(and only onto those), and the registry itself is unchanged. -/
theorem broadcast_fanout_registry_unchanged (st : CoordState) (f : List Nat) :
    (step st (.event f)).clients = st.clients
    ∧ (∀ c, c ∈ st.clients → (step st (.event f)).queues c = st.queues c ++ [f])
    ∧ (∀ c, c ∉ st.clients → (step st (.event f)).queues c = st.queues c) := by
  refine ⟨rfl, ?_, ?_⟩
  · intro c hc
    simp [step, hc]
  · intro c hc
    simp [step, hc]

theorem broadcast_fanout_registry_unchanged_registered :
    (step ⟨{0, 1}, fun _ => []⟩ (.event [42])).queues 0 = [] ++ [[42]] :=
  (broadcast_fanout_registry_unchanged ⟨{0, 1}, fun _ => []⟩ [42]).2.1 0 (by decide)

/-- Claim C2: running the coordinator over any request trace, the queue of
any client `c` ends up being its previous content followed by exactly the
frames of the broadcast requests processed while `c` was in the registry,
in trace (producer submission) order.  In particular a client registered
before a broadcast is processed receives that frame, in order, and a
client receives no frame broadcast entirely after its deregistration. -/
theorem delivery_matches_registration_interval :
    ∀ (rs : List Request) (st : CoordState) (c : Nat),
      (run st rs).queues c = st.queues c ++ receivedFrames st c rs := by
  intro rs
  induction rs with
  | nil =>
    intro st c
    simp [run, receivedFrames]
  | cons r rs ih =>
    intro st c
    rw [run, receivedFrames, ih (step st r) c]
    cases r with
    | connect c' => simp [step, deliveredNow]
    | disconnect c' => simp [step, deliveredNow]
    | event f =>
      by_cases hc : c ∈ st.clients <;> simp [step, deliveredNow, hc]

/-- Claim C7: if marshalling fails, `SendJSON` returns that error and the
coordinator state is untouched (nothing is broadcast); if it succeeds,
`SendJSON` broadcasts the frame encoding the serialized bytes and returns
no error. -/
theorem sendJSON_error_no_broadcast (id event : String) (st : CoordState)
    (m : Except String (List Nat)) :
    (∀ e, m = .error e →
      SendJSON id event m = .error e ∧ applySendJSON st (SendJSON id event m) = st)
    ∧ (∀ d, m = .ok d →
      SendJSON id event m = .ok (SendBytes id event d)
      ∧ applySendJSON st (SendJSON id event m)
          = step st (.event (SendBytes id event d))) := by
  constructor
  · intro e he
    subst he
    exact ⟨rfl, rfl⟩
  · intro d hd
    subst hd
    exact ⟨rfl, rfl⟩

theorem sendJSON_error_no_broadcast_concrete :
    (SendJSON "" "" (.error "boom") = .error "boom"
      ∧ applySendJSON ⟨{0}, fun _ => []⟩ (SendJSON "" "" (.error "boom"))
          = ⟨{0}, fun _ => []⟩)
    ∧ (SendJSON "" "" (.ok [49]) = .ok (SendBytes "" "" [49])
      ∧ applySendJSON ⟨{0}, fun _ => []⟩ (SendJSON "" "" (.ok [49]))
          = step ⟨{0}, fun _ => []⟩ (.event (SendBytes "" "" [49]))) :=
  ⟨(sendJSON_error_no_broadcast "" "" ⟨{0}, fun _ => []⟩ (.error "boom")).1 "boom" rfl,
   (sendJSON_error_no_broadcast "" "" ⟨{0}, fun _ => []⟩ (.ok [49])).2 [49] rfl⟩

/-- Claim C8: processing a deregister request removes the queue from the
registry if present, is a no-op when absent, and processing it twice
leaves the same state as processing it once. -/
theorem deregister_removes_and_is_idempotent (st : CoordState) (c : Nat) :
    (step st (.disconnect c)).clients = st.clients.erase c
    ∧ (step st (.disconnect c)).queues = st.queues
    ∧ (c ∉ st.clients → step st (.disconnect c) = st)
    ∧ step (step st (.disconnect c)) (.disconnect c) = step st (.disconnect c) := by
  obtain ⟨cl, q⟩ := st
  refine ⟨rfl, rfl, ?_, ?_⟩
  · intro hc
    simp [step, Finset.erase_eq_of_not_mem hc]
  · simp [step, Finset.erase_idem]

theorem deregister_absent_noop_concrete :
    step ⟨{1}, fun _ => []⟩ (.disconnect 0) = (⟨{1}, fun _ => []⟩ : CoordState) :=
  (deregister_removes_and_is_idempotent ⟨{1}, fun _ => []⟩ 0).2.2.1 (by decide)

/-- Claim C9: when the transport supports no flushing or no close
notification, `ServeHTTP` answers with a 501 "not implemented" error,
emits no coordinator request, and the registry is unchanged (no client
queue is ever registered). -/
theorem unsupported_transport_rejected (flusher closeNotifier : Bool) (cl : Nat)
    (st : CoordState) (h : flusher = false ∨ closeNotifier = false) :
    ((ServeHTTP flusher closeNotifier cl).1 = .errorResp "Flushing not supported" 501
      ∨ (ServeHTTP flusher closeNotifier cl).1 = .errorResp "Closing not supported" 501)
    ∧ (ServeHTTP flusher closeNotifier cl).2 = []
    ∧ run st (ServeHTTP flusher closeNotifier cl).2 = st := by
  cases flusher with
  | false => exact ⟨Or.inl rfl, rfl, rfl⟩
  | true =>
    cases closeNotifier with
    | false => exact ⟨Or.inr rfl, rfl, rfl⟩
    | true => rcases h with h | h <;> exact absurd h (by decide)

theorem unsupported_transport_rejected_concrete :
    ((ServeHTTP false true 0).1 = .errorResp "Flushing not supported" 501
      ∨ (ServeHTTP false true 0).1 = .errorResp "Closing not supported" 501)
    ∧ (ServeHTTP false true 0).2 = []
    ∧ run (⟨∅, fun _ => []⟩ : CoordState) (ServeHTTP false true 0).2
        = (⟨∅, fun _ => []⟩ : CoordState) :=
  unsupported_transport_rejected false true 0 ⟨∅, fun _ => []⟩ (Or.inl rfl)

/-- Every characterized frame ends in the two-byte block `\n\n`. -/
theorem drop_sub_two_append (A : List Nat) :
    (A ++ [10, 10]).drop ((A ++ [10, 10]).length - 2) = [10, 10] := by
  have h : (A ++ [10, 10]).length - 2 = A.length := by
    simp only [List.length_append, List.length_cons, List.length_nil]
    omega
  rw [h, List.drop_left]

/-- Claim C3: the encoder yields `"data\n\n"` on empty event type and
payload and `"event:update\ndata:42\n\n"` on `("update", "42")`; and for
every payload the `:` separator after `data` is present exactly when the
payload is non-empty. -/
theorem encoder_roundtrip_and_separator_boundary (id : String) :
    SendString id "" "" = strBytes "data

"
    ∧ SendString id "update" "42" = strBytes "event:update
data:42

"
    ∧ ∀ (event : String) (data : List Nat),
        SendBytes id event data =
          eventHeader event ++ strBytes "data" ++
            (if data = [] then [] else 58 :: data) ++ [10, 10] := by
  refine ⟨?_, ?_, fun event data => SendBytes_eq id event data⟩
  · rw [SendString_eq_SendBytes, SendBytes_eq]
    decide
  · rw [SendString_eq_SendBytes, SendBytes_eq]
    decide

/-- Claim C4: every frame produced by the byte, string and 64-bit numeric
send variants ends with exactly the two newline bytes. -/
theorem frames_end_with_two_newlines :
    (∀ (id event : String) (data : List Nat),
      (SendBytes id event data).drop ((SendBytes id event data).length - 2) = [10, 10])
    ∧ (∀ (id event data : String),
      (SendString id event data).drop ((SendString id event data).length - 2) = [10, 10])
    ∧ (∀ (id event : String) (n : Int),
      -9223372036854775808 ≤ n → n < 9223372036854775808 →
      (SendInt id event n).drop ((SendInt id event n).length - 2) = [10, 10])
    ∧ (∀ (id event : String) (u : Nat),
      u < 18446744073709551616 →
      (SendUint id event u).drop ((SendUint id event u).length - 2) = [10, 10]) := by
  refine ⟨?_, ?_, ?_, ?_⟩
  · intro id event data
    rw [SendBytes_eq]
    exact drop_sub_two_append _
  · intro id event data
    rw [SendString_eq_SendBytes, SendBytes_eq]
    exact drop_sub_two_append _
  · intro id event n hlo hhi
    rw [SendInt_eq id event n (intDecBytes_length_le_20 n hlo hhi)]
    exact drop_sub_two_append _
  · intro id event u hu
    rw [SendUint_eq id event u (natDecBytes_length_le_20 u hu)]
    exact drop_sub_two_append _

theorem frames_end_with_two_newlines_concrete :
    (SendInt "" "" (-5)).drop ((SendInt "" "" (-5)).length - 2) = [10, 10]
    ∧ (SendUint "" "" 7).drop ((SendUint "" "" 7).length - 2) = [10, 10] :=
  ⟨frames_end_with_two_newlines.2.2.1 "" "" (-5) (by decide) (by decide),
   frames_end_with_two_newlines.2.2.2 "" "" 7 (by decide)⟩

/-- Claim C5: over the full signed and unsigned 64-bit ranges, the numeric
send variants broadcast exactly the bytes `SendString` broadcasts on the
decimal textual representation of the number — the 20-byte reservation
leaves no padding or separators behind. -/
theorem numeric_sends_refine_sendString :
    (∀ (id event : String) (n : Int),
      -9223372036854775808 ≤ n → n < 9223372036854775808 →
      SendInt id event n = SendString id event (intDecString n))
    ∧ (∀ (id event : String) (u : Nat),
      u < 18446744073709551616 →
      SendUint id event u = SendString id event (natDecString u)) := by
  constructor
  · intro id event n hlo hhi
    rw [SendInt_eq id event n (intDecBytes_length_le_20 n hlo hhi),
      SendString_eq_SendBytes, strBytes_intDecString, SendBytes_eq,
      if_neg (intDecBytes_ne_nil n)]
  · intro id event u hu
    rw [SendUint_eq id event u (natDecBytes_length_le_20 u hu),
      SendString_eq_SendBytes, strBytes_natDecString, SendBytes_eq,
      if_neg (natDecBytes_ne_nil u)]

theorem numeric_sends_refine_sendString_concrete :
    SendInt "" "e" (-42) = SendString "" "e" (intDecString (-42))
    ∧ SendUint "" "" 0 = SendString "" "" (natDecString 0) :=
  ⟨numeric_sends_refine_sendString.1 "" "e" (-42) (by decide) (by decide),
   numeric_sends_refine_sendString.2 "" "" 0 (by decide)⟩

/-- Claim C10: over the full 64-bit ranges the decimal form fits the
20-byte reservation, so the truncation index, the two-byte reslice and
the final two `set` positions of `SendInt`/`SendUint` all stay within the
frame allocated by `format` (no operation is out of range). -/
theorem numeric_send_arithmetic_in_bounds :
    (∀ (id event : String) (n : Int),
      -9223372036854775808 ≤ n → n < 9223372036854775808 →
      (intDecBytes n).length ≤ 20
      ∧ 20 + 2 ≤ (format id event 20).length
      ∧ ((format id event 20).length - (20 + 2)) + (intDecBytes n).length + 2
          ≤ (format id event 20).length
      ∧ 2 ≤ (SendInt id event n).length)
    ∧ (∀ (id event : String) (u : Nat),
      u < 18446744073709551616 →
      (natDecBytes u).length ≤ 20
      ∧ 20 + 2 ≤ (format id event 20).length
      ∧ ((format id event 20).length - (20 + 2)) + (natDecBytes u).length + 2
          ≤ (format id event 20).length
      ∧ 2 ≤ (SendUint id event u).length) := by
  have hfl : ∀ (id event : String), (format id event 20).length
      = (eventHeader event).length + 27 := by
    intro id event
    rw [format_eq]
    simp only [List.length_append, List.length_cons, List.length_nil, List.length_replicate,
      if_pos (by omega : (20 : Nat) > 0)]
    have : (strBytes "data").length = 4 := by decide
    omega
  constructor
  · intro id event n hlo hhi
    have hd := intDecBytes_length_le_20 n hlo hhi
    have hsl : (SendInt id event n).length
        = (eventHeader event).length + 7 + (intDecBytes n).length := by
      rw [SendInt_eq id event n hd]
      simp only [List.length_append, List.length_cons, List.length_nil]
      have : (strBytes "data").length = 4 := by decide
      omega
    refine ⟨hd, ?_, ?_, ?_⟩
    · rw [hfl]
      omega
    · rw [hfl]
      omega
    · rw [hsl]
      omega
  · intro id event u hu
    have hd := natDecBytes_length_le_20 u hu
    have hsl : (SendUint id event u).length
        = (eventHeader event).length + 7 + (natDecBytes u).length := by
      rw [SendUint_eq id event u hd]
      simp only [List.length_append, List.length_cons, List.length_nil]
      have : (strBytes "data").length = 4 := by decide
      omega
    refine ⟨hd, ?_, ?_, ?_⟩
    · rw [hfl]
      omega
    · rw [hfl]
      omega
    · rw [hsl]
      omega

theorem numeric_send_arithmetic_in_bounds_concrete :
    (intDecBytes (-9223372036854775808)).length ≤ 20
    ∧ 20 + 2 ≤ (format "" "" 20).length
    ∧ ((format "" "" 20).length - (20 + 2)) + (intDecBytes (-9223372036854775808)).length + 2
        ≤ (format "" "" 20).length
    ∧ 2 ≤ (SendInt "" "" (-9223372036854775808)).length :=
  numeric_send_arithmetic_in_bounds.1 "" "" (-9223372036854775808) (by decide) (by decide)

theorem splitLines_line_block (D : List Nat) (hD : ∀ b ∈ D, b ≠ 10) :
    splitLines (D ++ [10, 10]) = D :: [[], []] := by
  have h := splitLines_append D [10, 10] [] [[], []] hD (by decide)
  simpa using h

theorem splitLines_header_block (H rest h : List Nat) (r : List (List Nat))
    (hH : ∀ b ∈ H, b ≠ 10) (hrest : splitLines rest = h :: r) :
    splitLines ((H ++ [10]) ++ rest) = H :: h :: r := by
  have hshape : (H ++ [10]) ++ rest = H ++ 10 :: rest := by simp
  have hbs : splitLines (10 :: rest) = [] :: h :: r := by
    rw [splitLines_cons_nl, hrest]
  have := splitLines_append H (10 :: rest) [] (h :: r) hH hbs
  rw [hshape, this, List.append_nil]

/-- Claim C6 (counterexample to the universal reading): a payload that
itself contains a newline followed by the bytes `id:` yields a frame one
of whose lines does start with `id:` — the encoder does not escape
newlines, so the universally quantified claim fails. -/
theorem id_line_from_newline_payload :
    hasIdLine (SendBytes "7" "" [10, 105, 100, 58]) = true := by decide

/-- Claim C6 (amended): the encoder itself emits no `id:` line — for every
id, event type and payload free of newline bytes the frame contains no
line starting with `id:` — and the encoder output does not depend on the
id argument at all. -/
theorem no_id_line_and_id_ignored :
    (∀ (id₁ id₂ event : String) (dataLen : Nat),
      format id₁ event dataLen = format id₂ event dataLen)
    ∧ (∀ (id event : String) (data : List Nat),
      (∀ b ∈ strBytes event, b ≠ 10) → (∀ b ∈ data, b ≠ 10) →
      hasIdLine (SendBytes id event data) = false) := by
  constructor
  · intro id₁ id₂ event dataLen
    rfl
  · intro id event data hev hd10
    have hSEne : ∀ b ∈ strBytes "event:", b ≠ 10 := by decide
    have hSDne : ∀ b ∈ strBytes "data", b ≠ 10 := by decide
    have hSEb : strBytes "event:" = [101, 118, 101, 110, 116, 58] := by decide
    have hSDb : strBytes "data" = [100, 97, 116, 97] := by decide
    have hite : ∀ b ∈ (if data = [] then ([] : List Nat) else 58 :: data), b ≠ 10 := by
      by_cases hdata : data = []
      · simp [hdata]
      · rw [if_neg hdata]
        intro b hb
        rcases List.mem_cons.mp hb with rfl | hb
        · omega
        · exact hd10 b hb
    have hSDite : ∀ b ∈ strBytes "data" ++ (if data = [] then ([] : List Nat) else 58 :: data),
        b ≠ 10 := by
      intro b hb
      rcases List.mem_append.mp hb with hb | hb
      · exact hSDne b hb
      · exact hite b hb
    rw [hasIdLine, SendBytes_eq]
    by_cases hevn : event.length > 0
    · have hshape : eventHeader event ++ strBytes "data"
            ++ (if data = [] then ([] : List Nat) else 58 :: data) ++ [10, 10]
          = ((strBytes "event:" ++ strBytes event) ++ [10])
              ++ ((strBytes "data" ++ (if data = [] then ([] : List Nat) else 58 :: data))
                  ++ [10, 10]) := by
        rw [eventHeader, if_pos hevn]
        simp [List.append_assoc]
      have hevline : ∀ b ∈ strBytes "event:" ++ strBytes event, b ≠ 10 := by
        intro b hb
        rcases List.mem_append.mp hb with hb | hb
        · exact hSEne b hb
        · exact hev b hb
      rw [hshape, splitLines_header_block _ _ _ _ hevline (splitLines_line_block _ hSDite)]
      simp [hSEb, hSDb, List.any_cons, List.any_nil]
    · have hshape : eventHeader event ++ strBytes "data"
            ++ (if data = [] then ([] : List Nat) else 58 :: data) ++ [10, 10]
          = (strBytes "data" ++ (if data = [] then ([] : List Nat) else 58 :: data))
              ++ [10, 10] := by
        rw [eventHeader, if_neg hevn]
        simp [List.append_assoc]
      rw [hshape, splitLines_line_block _ hSDite]
      simp [hSDb, List.any_cons, List.any_nil]

theorem no_id_line_concrete :
    hasIdLine (SendBytes "1" "update" [104, 105]) = false :=
  no_id_line_and_id_ignored.2 "1" "update" [104, 105] (by decide) (by decide)

end SSE
